import Mathlib

/-!
Verification of the base24-brain-assistant RAG core against its code.

The definitions below are shallow embeddings of the TypeScript source:
- `splitGo` / `splitIntoChunks` embed `splitIntoChunks` from
  `supabase/functions/process-document/index.ts` (lines 190-204).  The JS
  `while` loop is modelled with explicit fuel, since for `overlap >= size`
  the loop does not terminate; strings are modelled as `List Char`, and
  `text.slice(start, end)` with `0 <= start <= end` is
  `(text.drop start).take (end - start)`.
- The vector-store types and operations embed `src/utils/vectorStore.ts`.
  JS numbers are modelled as `ℚ` (exact arithmetic); `Math.sqrt` has no
  exact rational counterpart, so the square-root function is an explicit
  parameter `sq` of every definition that uses it, and theorems that need
  the defining property of the real square root take it as a hypothesis
  at the points where it is used.
- The ingestion handler of `supabase/functions/process-document/index.ts`
  is embedded as `processDocument`, with the per-chunk embedding network
  call abstracted as a fallible function `embed`.
- The context assembly of `supabase/functions/chat-with-docs/index.ts`,
  of the second chat function variant, and of `HybridChatInterface` are
  embedded as `buildContextDocs`, `buildContextRag`, `buildContextHybrid`.
- The streaming branch of `OllamaClient.chat` is embedded as
  `ollamaChatGo`, over the sequence of parsed JSON line records.
-/

namespace Base24

/-! ### Chunker: `splitIntoChunks` (process-document/index.ts, lines 190-204)

```
function splitIntoChunks(text, chunkSize, overlap) {
  const chunks = []; let start = 0;
  while (start < text.length) {
    const end = Math.min(start + chunkSize, text.length);
    const chunk = text.slice(start, end);
    chunks.push(chunk);
    if (end === text.length) break;
    start = end - overlap;
  }
  return chunks;
}
```
Each fuel unit pays for one loop iteration; `none` means the loop ran out
of fuel, and `(∀ fuel, ... = none)` means the JS loop never terminates. -/

def splitGo (chunkSize overlap : Nat) (text : List Char) : Nat → Nat → Option (List (List Char))
  | 0, _ => none
  | fuel + 1, start =>
    if start < text.length then
      let e := min (start + chunkSize) text.length
      let chunk := (text.drop start).take (e - start)
      if e = text.length then
        some [chunk]
      else
        match splitGo chunkSize overlap text fuel (e - overlap) with
        | none => none
        | some rest => some (chunk :: rest)
    else
      some []

/-- The chunker with enough fuel for any terminating run: when
`overlap < chunkSize` the loop start advances by at least one character
per iteration, so `text.length + 1` iterations always suffice. -/
def splitIntoChunks (text : List Char) (chunkSize overlap : Nat) : Option (List (List Char)) :=
  splitGo chunkSize overlap text (text.length + 1) 0

/-- Concatenation of the chunks after removing from every chunk but the
first its leading `overlap` characters (the part repeated from the
previous chunk). -/
def overlapConcat (overlap : Nat) : List (List Char) → List Char
  | [] => []
  | c :: cs => c ++ (cs.map (fun x => x.drop overlap)).flatten

/-- Invariant of the chunking loop, by induction on the fuel: with
`overlap < chunkSize` and enough fuel, the loop terminates and returns
exactly the windows `[s, min (s + chunkSize) len)` for starts advancing
by `chunkSize - overlap`, whose overlap-removing concatenation is the
remaining text, the last chunk reaching the end of the text. -/
theorem splitGo_spec (chunkSize overlap : Nat) (text : List Char) (hso : overlap < chunkSize) :
    ∀ fuel start, text.length - start < fuel →
      ∃ cs, splitGo chunkSize overlap text fuel start = some cs
        ∧ (cs = [] ↔ text.length ≤ start)
        ∧ (∀ k (hk : k < cs.length),
            cs.get ⟨k, hk⟩ = (text.drop (start + k * (chunkSize - overlap))).take chunkSize)
        ∧ overlapConcat overlap cs = text.drop start
        ∧ (∀ h : cs ≠ [],
            cs.getLast h = text.drop (start + (cs.length - 1) * (chunkSize - overlap))) := by
  intro fuel
  induction fuel with
  | zero => intro start h; omega
  | succ fuel ih =>
    intro start hfuel
    by_cases hs : start < text.length
    · by_cases he : min (start + chunkSize) text.length = text.length
      · -- final window: the loop emits the rest of the text and stops
        refine ⟨[(text.drop start).take (min (start + chunkSize) text.length - start)],
          by simp [splitGo, hs, he], ?_, ?_, ?_, ?_⟩
        · simp
          omega
        · intro k hk
          have hk0 : k = 0 := by simp at hk; omega
          subst hk0
          have h1 : min (start + chunkSize) text.length - start = text.length - start := by omega
          have h2 : (text.drop start).length ≤ chunkSize := by
            rw [List.length_drop]; omega
          have h3 : (text.drop start).length ≤ text.length - start := by
            rw [List.length_drop]
          simp [h1, List.take_of_length_le h2, List.take_of_length_le h3]
        · have h1 : min (start + chunkSize) text.length - start = text.length - start := by omega
          have h3 : (text.drop start).length ≤ text.length - start := by
            rw [List.length_drop]
          simp [overlapConcat, h1, List.take_of_length_le h3]
        · intro h
          have h1 : min (start + chunkSize) text.length - start = text.length - start := by omega
          have h3 : (text.drop start).length ≤ text.length - start := by
            rw [List.length_drop]
          simp [h1, List.take_of_length_le h3]
      · -- middle window: recurse at `start + (chunkSize - overlap)`
        have he2 : min (start + chunkSize) text.length = start + chunkSize := by omega
        have hlt : start + chunkSize < text.length := by omega
        have hstep : min (start + chunkSize) text.length - overlap
            = start + (chunkSize - overlap) := by omega
        obtain ⟨cs, hcs, hiff, hwin, hconcat, hlast⟩ :=
          ih (start + (chunkSize - overlap)) (by omega)
        have hne : cs ≠ [] := by
          intro hnil
          have := hiff.mp hnil
          omega
        refine ⟨(text.drop start).take (min (start + chunkSize) text.length - start) :: cs,
          ?_, ?_, ?_, ?_, ?_⟩
        · simp only [splitGo, if_pos hs, if_neg he, hstep, hcs]
        · simp
          omega
        · intro k hk
          match k with
          | 0 =>
            have h1 : min (start + chunkSize) text.length - start = chunkSize := by omega
            simp [h1]
          | j + 1 =>
            have hj : j < cs.length := by simpa using hk
            have := hwin j hj
            simp only [List.get_cons_succ]
            rw [this]
            congr 2
            ring
        · obtain ⟨c, rest, rfl⟩ := List.exists_cons_of_ne_nil hne
          have hc : c = (text.drop (start + (chunkSize - overlap))).take chunkSize := by
            have := hwin 0 (by simp)
            simpa using this
          have hclen : overlap ≤ c.length := by
            rw [hc, List.length_take, List.length_drop]
            omega
          have h1 : min (start + chunkSize) text.length - start = chunkSize := by omega
          simp only [overlapConcat, List.map_cons, List.flatten_cons] at hconcat ⊢
          rw [← List.append_assoc, h1]
          have hdrop : c.drop overlap ++ (rest.map (fun x => x.drop overlap)).flatten
              = text.drop (start + chunkSize) := by
            rw [← List.drop_append_of_le_length hclen, hconcat, List.drop_drop]
            congr 1
            omega
          rw [List.append_assoc, hdrop]
          calc (text.drop start).take chunkSize ++ text.drop (start + chunkSize)
              = (text.drop start).take chunkSize ++ (text.drop start).drop chunkSize := by
                rw [List.drop_drop]
            _ = text.drop start := List.take_append_drop _ _
        · intro h
          rw [List.getLast_cons hne, hlast hne]
          obtain ⟨c, rest, rfl⟩ := List.exists_cons_of_ne_nil hne
          simp only [List.length_cons, Nat.add_sub_cancel]
          have harith : start + (chunkSize - overlap) + rest.length * (chunkSize - overlap)
              = start + (rest.length + 1) * (chunkSize - overlap) := by ring
          rw [harith]
    · have hle : text.length ≤ start := by omega
      refine ⟨[], by simp [splitGo, hs], ?_, ?_, ?_, ?_⟩
      · exact iff_of_true rfl hle
      · intro k hk
        simp at hk
      · simp [overlapConcat, List.drop_eq_nil_of_le hle]
      · intro h
        exact absurd rfl h

/-- A nonempty text no longer than `chunkSize` is returned as a single
chunk: the first window already reaches the end of the text. -/
theorem splitIntoChunks_short (text : List Char) (chunkSize overlap : Nat)
    (hne : text ≠ []) (hlen : text.length ≤ chunkSize) :
    splitIntoChunks text chunkSize overlap = some [text] := by
  have h0 : 0 < text.length := List.length_pos.mpr hne
  have hmin : min (0 + chunkSize) text.length = text.length := by omega
  simp [splitIntoChunks, splitGo, h0, hmin]
  rw [if_pos hlen]
  have hmin2 : chunkSize ⊓ text.length = text.length := by omega
  rw [hmin2, List.take_length]

/-- Claim C3: for all parameters with `chunkSize > overlap ≥ 0` and every
text, `splitIntoChunks` terminates and covers the text: chunk `k` is the
window of the text starting at `k * (chunkSize - overlap)` of length at
most `chunkSize`, the concatenation of the chunks after removing the
repeated leading `overlap` characters of every chunk but the first
reconstructs the text, the empty text yields the empty sequence, the last
chunk ends exactly at the end of the text, and a nonempty text shorter
than `chunkSize` yields exactly one chunk equal to the whole text. -/
theorem splitIntoChunks_covers (text : List Char) (chunkSize overlap : Nat)
    (hso : overlap < chunkSize) :
    ∃ cs, splitIntoChunks text chunkSize overlap = some cs
      ∧ (∀ k (hk : k < cs.length),
          cs.get ⟨k, hk⟩ = (text.drop (k * (chunkSize - overlap))).take chunkSize)
      ∧ overlapConcat overlap cs = text
      ∧ (text = [] → cs = [])
      ∧ (∀ h : cs ≠ [],
          cs.getLast h = text.drop ((cs.length - 1) * (chunkSize - overlap)))
      ∧ (text ≠ [] → text.length < chunkSize → cs = [text]) := by
  obtain ⟨cs, hcs, hiff, hwin, hconcat, hlast⟩ :=
    splitGo_spec chunkSize overlap text hso (text.length + 1) 0 (by omega)
  have hcs2 : splitIntoChunks text chunkSize overlap = some cs := hcs
  refine ⟨cs, hcs2, ?_, ?_, ?_, ?_, ?_⟩
  · intro k hk
    simpa using hwin k hk
  · simpa using hconcat
  · intro ht
    subst ht
    exact hiff.mpr (by simp)
  · intro h
    simpa using hlast h
  · intro hne hlen
    have := splitIntoChunks_short text chunkSize overlap hne (Nat.le_of_lt hlen)
    rw [hcs2] at this
    exact Option.some.inj this

/-- Witness for C3 at the spec example: `chunk("abcdefghij", 4, 2)`
covers the ten-character text, reconstructing it after overlap removal. -/
theorem splitIntoChunks_covers_witness :
    ∃ cs, splitIntoChunks "abcdefghij".toList 4 2 = some cs
      ∧ overlapConcat 2 cs = "abcdefghij".toList := by
  obtain ⟨cs, h1, _, h3, _⟩ := splitIntoChunks_covers "abcdefghij".toList 4 2 (by decide)
  exact ⟨cs, h1, h3⟩

/-- Claim C4 (code bug): the code has no `overlap >= size` guard.  On the
text `"abcdefghij"` with `chunkSize = 4 = overlap` the loop start never
advances (`start = end - overlap` recomputes the same window), so the JS
`while` loop never terminates: no amount of fuel makes the embedded loop
return.  The claimed `InvalidConfiguration` failure does not exist in the
code. -/
theorem splitIntoChunks_overlap_eq_size_diverges :
    (∀ fuel, splitGo 4 4 "abcdefghij".toList fuel 0 = none)
    ∧ splitIntoChunks "abcdefghij".toList 4 4 = none := by
  have hgo : ∀ fuel, splitGo 4 4 "abcdefghij".toList fuel 0 = none := by
    intro fuel
    induction fuel with
    | zero => rfl
    | succ fuel ih =>
      have ih2 : splitGo 4 4 ['a', 'b', 'c', 'd', 'e', 'f', 'g', 'h', 'i', 'j'] fuel 0
          = none := ih
      simp [splitGo, ih2]
  exact ⟨hgo, hgo _⟩

/-! ### Vector store: `BrowserVectorStore` (src/utils/vectorStore.ts)

The store state is the `chunks` array.  JS numbers are modelled as `ℚ`;
`Math.sqrt` is passed explicitly as `sq` where the code uses it. -/

structure ChunkMetadata where
  chunkIndex : Nat
  documentName : String
deriving DecidableEq, Repr

structure DocumentChunk where
  id : String
  documentId : String
  content : String
  embedding : List ℚ
  metadata : ChunkMetadata
deriving DecidableEq, Repr

/-- The `newChunks` array built by `addDocumentChunks` (lines 43-52):
`chunks.map((content, index) => ({ id: documentId + "_" + index, ... ,
embedding: embeddings[index], ... }))`. -/
def mkDocumentChunks (documentId documentName : String) (chunks : List String)
    (embeddings : List (List ℚ)) : List DocumentChunk :=
  chunks.enum.map (fun p =>
    { id := documentId ++ "_" ++ toString p.1
      documentId := documentId
      content := p.2
      embedding := embeddings.getD p.1 []
      metadata := { chunkIndex := p.1, documentName := documentName } })

/-- `addDocumentChunks` (lines 42-62): removes every stored chunk of the
given document id, then appends the new generation. -/
def addDocumentChunks (store : List DocumentChunk) (documentId documentName : String)
    (chunks : List String) (embeddings : List (List ℚ)) : List DocumentChunk :=
  store.filter (fun chunk => chunk.documentId ≠ documentId)
    ++ mkDocumentChunks documentId documentName chunks embeddings

/-- `getChunkCount` (lines 114-116). -/
def getChunkCount (store : List DocumentChunk) : Nat :=
  store.length

theorem mkDocumentChunks_documentId (documentId documentName : String)
    (chunks : List String) (embeddings : List (List ℚ)) :
    ∀ c ∈ mkDocumentChunks documentId documentName chunks embeddings,
      c.documentId = documentId := by
  intro c hc
  simp only [mkDocumentChunks, List.mem_map] at hc
  obtain ⟨p, _, rfl⟩ := hc
  rfl

theorem mkDocumentChunks_length (documentId documentName : String)
    (chunks : List String) (embeddings : List (List ℚ)) :
    (mkDocumentChunks documentId documentName chunks embeddings).length
      = chunks.length := by
  simp [mkDocumentChunks]

/-- Claim C2: re-ingesting a document under the same id replaces its
chunks wholesale.  After two successive `addDocumentChunks` calls with
the same document id, the store holds exactly the untouched chunks of
other documents plus the second generation; the chunks stored under that
id are exactly the second generation (so no query sees a mixture of the
generations); and starting from an empty store (the single-document
case) `getChunkCount` is the second generation's chunk count. -/
theorem addDocumentChunks_replaces_wholesale (store : List DocumentChunk)
    (documentId n1 n2 : String) (cs1 cs2 : List String) (es1 es2 : List (List ℚ)) :
    addDocumentChunks (addDocumentChunks store documentId n1 cs1 es1) documentId n2 cs2 es2
      = store.filter (fun c => c.documentId ≠ documentId)
        ++ mkDocumentChunks documentId n2 cs2 es2
    ∧ (addDocumentChunks (addDocumentChunks store documentId n1 cs1 es1)
        documentId n2 cs2 es2).filter (fun c => c.documentId = documentId)
      = mkDocumentChunks documentId n2 cs2 es2
    ∧ (store = [] →
        getChunkCount (addDocumentChunks (addDocumentChunks store documentId n1 cs1 es1)
          documentId n2 cs2 es2) = cs2.length) := by
  have hmk1 : (mkDocumentChunks documentId n1 cs1 es1).filter
      (fun c => c.documentId ≠ documentId) = [] := by
    rw [List.filter_eq_nil_iff]
    intro c hc
    simp [mkDocumentChunks_documentId documentId n1 cs1 es1 c hc]
  have hff : (store.filter (fun c => c.documentId ≠ documentId)).filter
      (fun c => c.documentId ≠ documentId)
      = store.filter (fun c => c.documentId ≠ documentId) := by
    rw [List.filter_filter]
    congr 1
    funext a
    rw [Bool.and_self]
  have hs2 : addDocumentChunks (addDocumentChunks store documentId n1 cs1 es1)
      documentId n2 cs2 es2
      = store.filter (fun c => c.documentId ≠ documentId)
        ++ mkDocumentChunks documentId n2 cs2 es2 := by
    unfold addDocumentChunks
    rw [List.filter_append, hmk1, hff, List.append_nil]
  refine ⟨hs2, ?_, ?_⟩
  · rw [hs2, List.filter_append]
    have h1 : (store.filter (fun c => c.documentId ≠ documentId)).filter
        (fun c => c.documentId = documentId) = [] := by
      rw [List.filter_eq_nil_iff]
      intro c hc
      have := (List.mem_filter.mp hc).2
      simp at this ⊢
      exact this
    have h2 : (mkDocumentChunks documentId n2 cs2 es2).filter
        (fun c => c.documentId = documentId) = mkDocumentChunks documentId n2 cs2 es2 := by
      rw [List.filter_eq_self]
      intro c hc
      simp [mkDocumentChunks_documentId documentId n2 cs2 es2 c hc]
    rw [h1, h2, List.nil_append]
  · intro hstore
    subst hstore
    rw [hs2]
    simp [getChunkCount, mkDocumentChunks_length]

/-- Witness for C2: two generations under id `"d"` of sizes 3 and 2 into
an empty store leave exactly 2 chunks. -/
theorem addDocumentChunks_replaces_wholesale_witness :
    getChunkCount (addDocumentChunks
      (addDocumentChunks [] "d" "gen1" ["a", "b", "c"] [[1], [1], [1]])
      "d" "gen2" ["u", "v"] [[1], [1]]) = 2 :=
  (addDocumentChunks_replaces_wholesale [] "d" "gen1" "gen2" ["a", "b", "c"] ["u", "v"]
    [[1], [1], [1]] [[1], [1]]).2.2 rfl

/-! ### Cosine similarity and `searchSimilar` (vectorStore.ts, lines 64-107)

`cosineSimilarity` (lines 91-107) throws when the lengths differ, then
computes `dot / (Math.sqrt(normA) * Math.sqrt(normB))` with no zero-norm
check.  The single loop accumulating `dotProduct`, `normA`, `normB` is
rendered by `dotProduct` and `sumSquares`; `Math.sqrt` is the explicit
parameter `sq` (exact arithmetic: the real square root has no rational
counterpart, so theorems about its value assume `sq` squares back at the
point of use). -/

def dotProduct (a b : List ℚ) : ℚ :=
  ((a.zip b).map (fun p => p.1 * p.2)).sum

def sumSquares (a : List ℚ) : ℚ :=
  (a.map (fun x => x * x)).sum

def cosineSimilarity (sq : ℚ → ℚ) (a b : List ℚ) : Except String ℚ :=
  if a.length ≠ b.length then
    .error "Vectors must have the same length"
  else
    .ok (dotProduct a b / (sq (sumSquares a) * sq (sumSquares b)))

structure SearchResult where
  content : String
  similarity : ℚ
  documentName : String
  chunkIndex : Nat
deriving DecidableEq, Repr

/-- The `this.chunks.map(chunk => ...)` of `searchSimilar` (lines 75-83):
a thrown cosine-similarity error aborts the whole mapping. -/
def computeSimilarities (sq : ℚ → ℚ) (queryEmbedding : List ℚ) :
    List DocumentChunk → Except String (List SearchResult)
  | [] => .ok []
  | chunk :: rest =>
    match cosineSimilarity sq queryEmbedding chunk.embedding with
    | .error e => .error e
    | .ok sim =>
      match computeSimilarities sq queryEmbedding rest with
      | .error e => .error e
      | .ok others => .ok ({ content := chunk.content
                             similarity := sim
                             documentName := chunk.metadata.documentName
                             chunkIndex := chunk.metadata.chunkIndex } :: others)

/-- `searchSimilar` (lines 64-89): empty store short-circuits to `[]`;
otherwise score every chunk, sort by descending similarity
(`(a, b) => b.similarity - a.similarity`) and keep the first `topK`. -/
def searchSimilar (sq : ℚ → ℚ) (store : List DocumentChunk) (queryEmbedding : List ℚ)
    (topK : Nat) : Except String (List SearchResult) :=
  if store.length = 0 then
    .ok []
  else
    match computeSimilarities sq queryEmbedding store with
    | .error e => .error e
    | .ok similarities =>
      .ok ((similarities.mergeSort
        (fun a b => decide (b.similarity ≤ a.similarity))).take topK)

/-- The Retriever threshold filter of `HybridChatInterface.handleSubmit`
(part_005, line 124): `searchResults.filter(result => result.similarity > 0.3)`. -/
def relevantResults (searchResults : List SearchResult) : List SearchResult :=
  searchResults.filter (fun result => (3 : ℚ) / 10 < result.similarity)

theorem dotProduct_self (a : List ℚ) : dotProduct a a = sumSquares a := by
  induction a with
  | nil => rfl
  | cons x l ih => simp [dotProduct, sumSquares] at ih ⊢; rw [ih]

theorem dotProduct_comm (a b : List ℚ) : dotProduct a b = dotProduct b a := by
  induction a generalizing b with
  | nil => cases b <;> rfl
  | cons x l ih =>
    cases b with
    | nil => rfl
    | cons y m => simp [dotProduct] at ih ⊢; rw [mul_comm, ih]

theorem sumSquares_nonneg (a : List ℚ) : 0 ≤ sumSquares a := by
  induction a with
  | nil => simp [sumSquares]
  | cons x l ih =>
    simp only [sumSquares, List.map_cons, List.sum_cons] at ih ⊢
    exact add_nonneg (mul_self_nonneg x) ih

theorem sumSquares_cons (y : ℚ) (l : List ℚ) :
    sumSquares (y :: l) = y * y + sumSquares l := by
  simp [sumSquares]

theorem sumSquares_pos (a : List ℚ) (h : ∃ x ∈ a, x ≠ 0) : 0 < sumSquares a := by
  obtain ⟨x, hx, hx0⟩ := h
  induction a with
  | nil => simp at hx
  | cons y l ih =>
    rw [sumSquares_cons]
    rcases List.mem_cons.mp hx with rfl | hxl
    · have h1 : 0 < x * x := mul_self_pos.mpr hx0
      have h2 := sumSquares_nonneg l
      linarith
    · have hl := ih hxl
      have h2 := mul_self_nonneg y
      linarith

/-- Claim C9: the cosine-similarity of the vector store is reflexive and
symmetric.  For a non-zero vector `a`, and any value of `sq` that squares
back to the sum of squares at `a` (the defining property of the real
square root there), `cosine(a, a)` is exactly `1`; and for all vectors,
`cosine(a, b) = cosine(b, a)`. -/
theorem cosineSimilarity_refl_symm :
    (∀ (sq : ℚ → ℚ) (a : List ℚ), (∃ x ∈ a, x ≠ 0) →
      sq (sumSquares a) * sq (sumSquares a) = sumSquares a →
      cosineSimilarity sq a a = .ok 1)
    ∧ (∀ (sq : ℚ → ℚ) (a b : List ℚ), cosineSimilarity sq a b = cosineSimilarity sq b a) := by
  constructor
  · intro sq a hnz hsq
    have hpos : 0 < sumSquares a := sumSquares_pos a hnz
    have e1 : cosineSimilarity sq a a
        = .ok (dotProduct a a / (sq (sumSquares a) * sq (sumSquares a))) := by
      simp [cosineSimilarity]
    rw [e1, dotProduct_self, hsq, div_self (ne_of_gt hpos)]
  · intro sq a b
    by_cases h : a.length = b.length
    · have e1 : cosineSimilarity sq a b
          = .ok (dotProduct a b / (sq (sumSquares a) * sq (sumSquares b))) := by
        simp [cosineSimilarity, h]
      have e2 : cosineSimilarity sq b a
          = .ok (dotProduct b a / (sq (sumSquares b) * sq (sumSquares a))) := by
        simp [cosineSimilarity, h.symm]
      rw [e1, e2, dotProduct_comm, mul_comm]
    · have h2 : b.length ≠ a.length := fun hh => h hh.symm
      simp [cosineSimilarity, h, h2]

/-- Witness for C9: the one-dimensional vector `[3]` with the exact
square root `3` of its squared norm `9` has self-similarity `1`. -/
theorem cosineSimilarity_refl_symm_witness :
    cosineSimilarity (fun _ => 3) [(3 : ℚ)] [3] = .ok 1 :=
  cosineSimilarity_refl_symm.1 (fun _ => 3) [3]
    ⟨3, by simp, by norm_num⟩ (by show (3 : ℚ) * 3 = sumSquares [3]; simp [sumSquares])

/-- Counterexample for C5: `cosineSimilarity` performs no zero-norm
check.  Called on the zero vector `[0]` against itself (with `sq` giving
the exact square root `0` of the zero norm) it returns a result — the
division by the zero norm product is performed — instead of failing with
an `InvalidVector` error.  (In JS float semantics the returned quotient
is `NaN`; in this exact-arithmetic model the division by zero yields
`0`.  Either way, no error is raised.) -/
theorem cosineSimilarity_zero_vector_returns :
    cosineSimilarity (fun _ => 0) [(0 : ℚ)] [0] = .ok 0 := by
  have e1 : cosineSimilarity (fun _ => 0) [(0 : ℚ)] [0]
      = .ok (dotProduct [0] [0] / ((0 : ℚ) * 0)) := by
    simp [cosineSimilarity]
  rw [e1]
  norm_num [dotProduct]

/-- Claim C5, amended: the cosine-similarity operation never fails on
zero-norm operands — its only guard is the length check, so for every
pair of equal-length vectors, including vectors of zero norm, it returns
a computed quotient (dividing by the product of the norms, which is zero
in the zero-norm case) rather than an `InvalidVector` error. -/
theorem cosineSimilarity_no_zero_norm_check (sq : ℚ → ℚ) (a b : List ℚ)
    (h : a.length = b.length) :
    (cosineSimilarity sq a b).isOk = true := by
  simp [cosineSimilarity, h, Except.isOk, Except.toBool]

/-- Witness for the amended C5 at a two-dimensional zero vector. -/
theorem cosineSimilarity_no_zero_norm_check_witness :
    (cosineSimilarity (fun _ => 0) [(0 : ℚ), 0] [0, 0]).isOk = true :=
  cosineSimilarity_no_zero_norm_check (fun _ => 0) [0, 0] [0, 0] rfl

/-- Claim C10: mismatched dimensionality is rejected.  `cosineSimilarity`
on vectors of unequal length fails with the error
`"Vectors must have the same length"`; consequently `searchSimilar`
fails with that error whenever any stored chunk's embedding length
differs from the query vector's, instead of ranking mixed-dimension
vectors. -/
theorem cosineSimilarity_length_guard :
    (∀ (sq : ℚ → ℚ) (a b : List ℚ), a.length ≠ b.length →
      cosineSimilarity sq a b = .error "Vectors must have the same length")
    ∧ (∀ (sq : ℚ → ℚ) (store : List DocumentChunk) (queryEmbedding : List ℚ)
        (topK : Nat) (c : DocumentChunk), c ∈ store →
        c.embedding.length ≠ queryEmbedding.length →
        searchSimilar sq store queryEmbedding topK
          = .error "Vectors must have the same length") := by
  have hcos : ∀ (sq : ℚ → ℚ) (a b : List ℚ), a.length ≠ b.length →
      cosineSimilarity sq a b = .error "Vectors must have the same length" := by
    intro sq a b h
    simp [cosineSimilarity, h]
  refine ⟨hcos, ?_⟩
  intro sq store queryEmbedding topK c hc hlen
  have hmap : ∀ store : List DocumentChunk, c ∈ store →
      computeSimilarities sq queryEmbedding store
        = .error "Vectors must have the same length" := by
    intro store
    induction store with
    | nil => intro h; simp at h
    | cons hd tl ih =>
      intro hmem
      rcases List.mem_cons.mp hmem with rfl | htl
      · have := hcos sq queryEmbedding c.embedding (fun h => hlen h.symm)
        simp [computeSimilarities, this]
      · by_cases hh : queryEmbedding.length = hd.embedding.length
        · have e1 : cosineSimilarity sq queryEmbedding hd.embedding
              = .ok (dotProduct queryEmbedding hd.embedding
                / (sq (sumSquares queryEmbedding) * sq (sumSquares hd.embedding))) := by
            simp [cosineSimilarity, hh]
          simp [computeSimilarities, e1, ih htl]
        · have := hcos sq queryEmbedding hd.embedding hh
          simp [computeSimilarities, this]
  have hne : store.length ≠ 0 := by
    cases store with
    | nil => simp at hc
    | cons a l => simp
  simp [searchSimilar, hne, hmap store hc]

/-- Witness for C10: a stored two-dimensional chunk embedding against a
one-dimensional query makes the search fail. -/
theorem cosineSimilarity_length_guard_witness :
    searchSimilar (fun x => x) [(⟨"d_0", "d", "hello", [1, 2], ⟨0, "doc"⟩⟩ : DocumentChunk)]
      [(1 : ℚ)] 5 = .error "Vectors must have the same length" :=
  cosineSimilarity_length_guard.2 (fun x => x)
    [(⟨"d_0", "d", "hello", [1, 2], ⟨0, "doc"⟩⟩ : DocumentChunk)] [(1 : ℚ)] 5
    (⟨"d_0", "d", "hello", [1, 2], ⟨0, "doc"⟩⟩ : DocumentChunk)
    (by simp) (by simp)

/-- Claim C6: `searchSimilar` returns `[]` on an empty store, and any
successful result has length at most `topK`, is ordered by descending
similarity, and after the Retriever threshold filter no returned result
has similarity below the `0.3` threshold. -/
theorem searchSimilar_spec (sq : ℚ → ℚ) (store : List DocumentChunk)
    (queryEmbedding : List ℚ) (topK : Nat) :
    (store = [] → searchSimilar sq store queryEmbedding topK = .ok [])
    ∧ (∀ res, searchSimilar sq store queryEmbedding topK = .ok res →
        res.length ≤ topK
        ∧ res.Pairwise (fun a b => b.similarity ≤ a.similarity)
        ∧ (∀ r ∈ relevantResults res, ¬ r.similarity < 3 / 10)) := by
  constructor
  · intro h
    subst h
    simp [searchSimilar]
  · intro res hres
    have hthreshold : ∀ r ∈ relevantResults res, ¬ r.similarity < 3 / 10 := by
      intro r hr
      have h2 := (List.mem_filter.mp hr).2
      simp only [decide_eq_true_eq] at h2
      exact not_lt.mpr (le_of_lt h2)
    by_cases hlen : store.length = 0
    · have : res = [] := by
        simp [searchSimilar, hlen] at hres
        exact hres
      subst this
      exact ⟨by simp, by simp, hthreshold⟩
    · cases hcomp : computeSimilarities sq queryEmbedding store with
      | error e =>
        rw [searchSimilar, if_neg hlen, hcomp] at hres
        exact absurd hres (by simp)
      | ok sims =>
        rw [searchSimilar, if_neg hlen, hcomp] at hres
        have hres2 : (sims.mergeSort
            (fun a b => decide (b.similarity ≤ a.similarity))).take topK = res := by
          exact Except.ok.inj hres
        refine ⟨?_, ?_, hthreshold⟩
        · rw [← hres2, List.length_take]
          exact min_le_left _ _
        · have htrans : ∀ x y z : SearchResult,
              decide (y.similarity ≤ x.similarity) = true →
              decide (z.similarity ≤ y.similarity) = true →
              decide (z.similarity ≤ x.similarity) = true := by
            intro x y z h1 h2
            simp only [decide_eq_true_eq] at h1 h2 ⊢
            exact le_trans h2 h1
          have htotal : ∀ x y : SearchResult,
              (decide (y.similarity ≤ x.similarity)
                || decide (x.similarity ≤ y.similarity)) = true := by
            intro x y
            simp [le_total]
          have hsorted := List.sorted_mergeSort htrans htotal sims
          have hpair : (sims.mergeSort
              (fun a b => decide (b.similarity ≤ a.similarity))).Pairwise
              (fun a b => b.similarity ≤ a.similarity) := by
            refine hsorted.imp ?_
            intro a b h
            simpa using h
          rw [← hres2]
          exact List.Pairwise.sublist (List.take_sublist _ _) hpair

/-- Witness for C6 on a one-chunk store whose embedding equals the query
vector: the sole result has similarity `1` and passes every bound. -/
theorem searchSimilar_spec_witness :
    ([(⟨"hello", (1 : ℚ), "doc", 0⟩ : SearchResult)] : List SearchResult).length ≤ 5
    ∧ ([(⟨"hello", (1 : ℚ), "doc", 0⟩ : SearchResult)] : List SearchResult).Pairwise
        (fun a b => b.similarity ≤ a.similarity)
    ∧ (∀ r ∈ relevantResults [(⟨"hello", (1 : ℚ), "doc", 0⟩ : SearchResult)],
        ¬ r.similarity < 3 / 10) := by
  refine (searchSimilar_spec (fun x => x)
    [(⟨"d_0", "d", "hello", [1], ⟨0, "doc"⟩⟩ : DocumentChunk)] [(1 : ℚ)] 5).2 _ ?_
  norm_num [searchSimilar, computeSimilarities, cosineSimilarity, dotProduct,
    sumSquares, List.mergeSort]

/-! ### Ingestion: the process-document handler (index.ts, lines 87-187)

The handler embeds every chunk in a strictly sequential loop (lines
89-127); a rethrown per-chunk failure aborts the run before the single
`document_chunks` insert (lines 132-134).  The catch block (lines
161-187) then tries to set the status to `error`, but it re-reads the
request body with `req.text()` (line 166) after line 22 already consumed
it with `req.json()`; a Fetch/Deno request body is one-shot, so that
re-read throws, the inner catch (lines 179-181) swallows the throw, and
the `status: 'error'` update at line 176 never executes — the document
keeps the `processing` status written at line 65.  The per-chunk OpenAI
embedding call is abstracted as the fallible `embed`, indexed by the
loop counter. -/

structure ChunkRow where
  document_id : String
  chunk_index : Nat
  content : String
  embedding : List ℚ
deriving DecidableEq, Repr

/-- The `for (let i = 0; ...)` embedding loop building
`chunksWithEmbeddings`: the first failing `embed` aborts the loop and the
whole try block. -/
def embedChunksLoop (embed : Nat → String → Except String (List ℚ))
    (documentId : String) (i : Nat) : List String → Except String (List ChunkRow)
  | [] => .ok []
  | chunk :: rest =>
    match embed i chunk with
    | .error e => .error e
    | .ok vec =>
      match embedChunksLoop embed documentId (i + 1) rest with
      | .error e => .error e
      | .ok rows => .ok (⟨documentId, i, chunk, vec⟩ :: rows)

structure IngestOutcome where
  storedChunks : List ChunkRow
  status : String
deriving DecidableEq, Repr

/-- The catch block's attempted status update (lines 164-181): it first
re-reads the one-shot request body (line 166), which throws when the
body was already consumed (line 22 — always, on this path); the inner
catch swallows the throw, so no update is issued (`none`). -/
def catchErrorStatusUpdate (bodyAlreadyConsumed : Bool) : Option String :=
  if bodyAlreadyConsumed then none else some "error"

/-- The handler from chunking onwards: chunks are inserted only after the
loop embedded every one of them, then the status becomes `indexed`; any
embedding failure reaches the catch block, which stores nothing, and
whose status update never executes (the body re-read throws), leaving
the `processing` status written at line 65. -/
def processDocument (embed : Nat → String → Except String (List ℚ))
    (documentId : String) (chunks : List String) : IngestOutcome :=
  match embedChunksLoop embed documentId 0 chunks with
  | .error _ =>
    { storedChunks := [], status := (catchErrorStatusUpdate true).getD "processing" }
  | .ok rows => { storedChunks := rows, status := "indexed" }

/-- A successful embedding loop means every chunk's embedding call
succeeded. -/
theorem embedChunksLoop_ok (embed : Nat → String → Except String (List ℚ))
    (documentId : String) :
    ∀ (chunks : List String) (i0 : Nat) (rows : List ChunkRow),
      embedChunksLoop embed documentId i0 chunks = .ok rows →
      ∀ j < chunks.length, ∃ v, embed (i0 + j) (chunks.getD j "") = .ok v := by
  intro chunks
  induction chunks with
  | nil =>
    intro i0 rows _ j hj
    simp at hj
  | cons chunk rest ih =>
    intro i0 rows hok j hj
    rw [embedChunksLoop] at hok
    cases hhd : embed i0 chunk with
    | error e => rw [hhd] at hok; exact absurd hok (by simp)
    | ok vec =>
      rw [hhd] at hok
      cases hrest : embedChunksLoop embed documentId (i0 + 1) rest with
      | error e => rw [hrest] at hok; exact absurd hok (by simp)
      | ok rows2 =>
        match j with
        | 0 => exact ⟨vec, by simpa using hhd⟩
        | j + 1 =>
          have hj2 : j < rest.length := by simpa using hj
          obtain ⟨v, hv⟩ := ih (i0 + 1) rows2 hrest j hj2
          refine ⟨v, ?_⟩
          have harith : i0 + 1 + j = i0 + (j + 1) := by omega
          rw [← harith]
          simpa using hv

/-- Claim C1 (code bug), evaluated at the spec's failing input: a
three-chunk document whose second chunk's embedding call fails.  The
all-or-nothing half of the claim holds — zero chunks are stored — but
the final document status is `processing`, not the claimed `error`: the
catch block re-reads the request body that line 22 already consumed, the
re-read throws, the inner catch swallows the throw, and the
`status: 'error'` update at line 176 never executes. -/
theorem processDocument_error_status_unreachable :
    (processDocument (fun i _ => if i = 1 then .error "OpenAI API error" else .ok [1])
      "doc-1" ["c0", "c1", "c2"]).storedChunks = []
    ∧ (processDocument (fun i _ => if i = 1 then .error "OpenAI API error" else .ok [1])
      "doc-1" ["c0", "c1", "c2"]).status = "processing"
    ∧ (processDocument (fun i _ => if i = 1 then .error "OpenAI API error" else .ok [1])
      "doc-1" ["c0", "c1", "c2"]).status ≠ "error"
    ∧ (processDocument (fun i _ => if i = 1 then .error "OpenAI API error" else .ok [1])
      "doc-1" ["c0", "c1", "c2"]).status ≠ "indexed" := by
  have hloop : embedChunksLoop
      (fun i _ => if i = 1 then .error "OpenAI API error" else .ok [1])
      "doc-1" 0 ["c0", "c1", "c2"] = .error "OpenAI API error" := by
    simp [embedChunksLoop]
  refine ⟨?_, ?_, ?_, ?_⟩ <;>
    simp [processDocument, hloop, catchErrorStatusUpdate]

/-! ### Prompt context assembly

Three assemblers exist in the sources.  `chat-with-docs/index.ts` (lines
79-82) joins the rows with a blank line and has no sentinel for the empty
case; the second chat function (part_000, lines 103-108) and
`HybridChatInterface.handleSubmit` (part_005, lines 120-127) replace the
empty case with an explicit sentinel string. -/

/-- A row of the `search_documents` RPC result. -/
structure SearchRow where
  content : String
  document_name : String
  similarity : ℚ
deriving DecidableEq, Repr

def formatRow (result : SearchRow) : String :=
  "Source: " ++ result.document_name ++ "\nContent: " ++ result.content

/-- chat-with-docs/index.ts, lines 79-82: no sentinel. -/
def buildContextDocs (searchResults : List SearchRow) : String :=
  String.intercalate "\n\n" (searchResults.map formatRow)

/-- part_000, lines 103-108: sentinel on the empty result list. -/
def buildContextRag (searchResults : List SearchRow) : String :=
  if searchResults.length > 0 then
    String.intercalate "\n\n" (searchResults.map formatRow)
  else
    "No relevant documents found in your library."

def formatResult (result : SearchResult) : String :=
  "Source: " ++ result.documentName ++ "\nContent: " ++ result.content

/-- part_005, line 121: `searchResults.length > 0 && searchResults[0].similarity > 0.3`. -/
def hasRelevantContent : List SearchResult → Bool
  | [] => false
  | r :: _ => decide ((3 : ℚ) / 10 < r.similarity)

/-- part_005, lines 122-127: sentinel when no result clears the threshold. -/
def buildContextHybrid (searchResults : List SearchResult) : String :=
  if hasRelevantContent searchResults then
    String.intercalate "\n\n" ((relevantResults searchResults).map formatResult)
  else
    "No relevant documents found in your local library."

/-- Counterexample for C7: the chat-with-docs assembler does not insert a
sentinel — on an empty retrieval its grounding context is the empty
block, which the claim says never happens. -/
theorem buildContextDocs_empty_no_sentinel :
    buildContextDocs [] = ""
    ∧ buildContextDocs [] ≠ "No relevant documents found in your library." := by
  constructor
  · rfl
  · intro h
    exact absurd h (by decide)

/-- Claim C7, amended: the assemblers of the part_000 chat function and
of the hybrid chat interface insert an explicit sentinel when the
(filtered) result sequence is empty, and otherwise emit one
`Source`/`Content` pair per result in the order received, joined by a
blank line; the chat-with-docs assembler instead produces an empty
context block on an empty result sequence. -/
theorem contextAssembly_sentinel :
    buildContextDocs [] = ""
    ∧ buildContextRag [] = "No relevant documents found in your library."
    ∧ (∀ rs : List SearchRow, rs ≠ [] →
        buildContextRag rs = String.intercalate "\n\n" (rs.map formatRow))
    ∧ (∀ rs : List SearchResult, relevantResults rs = [] →
        buildContextHybrid rs = "No relevant documents found in your local library.")
    ∧ (∀ rs : List SearchResult, hasRelevantContent rs = true →
        buildContextHybrid rs
          = String.intercalate "\n\n" ((relevantResults rs).map formatResult)) := by
  refine ⟨rfl, rfl, ?_, ?_, ?_⟩
  · intro rs hne
    have h : rs.length > 0 := List.length_pos.mpr hne
    simp [buildContextRag, h]
  · intro rs hempty
    have h : hasRelevantContent rs = false := by
      cases rs with
      | nil => rfl
      | cons r tl =>
        have := List.filter_eq_nil_iff.mp hempty r (by simp)
        simp only [hasRelevantContent]
        simpa using this
    simp [buildContextHybrid, h]
  · intro rs h
    simp [buildContextHybrid, h]

/-- Witness for the amended C7: one passing row is rendered as its
`Source`/`Content` pair, and an empty hybrid retrieval yields the local
sentinel. -/
theorem contextAssembly_sentinel_witness :
    buildContextRag [(⟨"chunk text", "manual.pdf", (9 : ℚ) / 10⟩ : SearchRow)]
      = "Source: manual.pdf\nContent: chunk text"
    ∧ buildContextHybrid [] = "No relevant documents found in your local library." := by
  constructor
  · have h := contextAssembly_sentinel.2.2.1
      [(⟨"chunk text", "manual.pdf", (9 : ℚ) / 10⟩ : SearchRow)] (by simp)
    rw [h]
    rfl
  · exact contextAssembly_sentinel.2.2.2.1 [] rfl

/-! ### Streaming synthesis: `OllamaClient.chat` (part_002, lines 75-114)

The streaming branch reads parsed JSON line records `{ response, done }`
in arrival order: a truthy (non-empty) `response` is appended to
`fullResponse` and emitted to the `onStream` callback, and a truthy
`done` returns `fullResponse` immediately.  `HybridChatInterface`
(part_005, lines 153-188) accumulates the emitted fragments with
`fullResponse += chunk` into the final assistant message content. -/

structure OllamaResponse where
  response : String
  done : Bool
deriving DecidableEq, Repr

/-- The reader loop, carrying `fullResponse` and the list of fragments
passed to `onStream` so far; the pair is (returned full response,
emitted fragments). -/
def ollamaChatGo (fullResponse : String) (emitted : List String) :
    List OllamaResponse → String × List String
  | [] => (fullResponse, emitted)
  | r :: rest =>
    let fullResponse2 := if r.response = "" then fullResponse else fullResponse ++ r.response
    let emitted2 := if r.response = "" then emitted else emitted ++ [r.response]
    if r.done then (fullResponse2, emitted2) else ollamaChatGo fullResponse2 emitted2 rest

def ollamaChat (stream : List OllamaResponse) : String × List String :=
  ollamaChatGo "" [] stream

/-- The non-empty text fragments of the stream up to and including the
record carrying the done signal. -/
def fragmentsBeforeDone : List OllamaResponse → List String
  | [] => []
  | r :: rest =>
    let frags := if r.response = "" then [] else [r.response]
    if r.done then frags else frags ++ fragmentsBeforeDone rest

/-- The client-side accumulation `fullResponse += chunk` over the emitted
fragments (part_005, lines 163-165). -/
def concatFragments (fragments : List String) : String :=
  fragments.foldl (fun acc chunk => acc ++ chunk) ""

theorem concatFragments_foldl (l : List String) :
    ∀ acc : String, l.foldl (fun a c => a ++ c) acc = acc ++ concatFragments l := by
  induction l with
  | nil =>
    intro acc
    simp [concatFragments]
  | cons x l ih =>
    intro acc
    have hx : concatFragments (x :: l) = x ++ concatFragments l := by
      show (x :: l).foldl (fun a c => a ++ c) "" = x ++ concatFragments l
      rw [List.foldl_cons, ih ("" ++ x), String.empty_append]
    rw [hx, List.foldl_cons, ih (acc ++ x), String.append_assoc]

theorem concatFragments_cons (x : String) (l : List String) :
    concatFragments (x :: l) = x ++ concatFragments l := by
  show (x :: l).foldl (fun a c => a ++ c) "" = x ++ concatFragments l
  rw [List.foldl_cons, concatFragments_foldl l ("" ++ x), String.empty_append]

/-- Loop invariant: the run returns the carried response extended by the
concatenated fragments up to the done signal, and the emitted fragments
are exactly those fragments. -/
theorem ollamaChatGo_spec (stream : List OllamaResponse) :
    ∀ (acc : String) (em : List String),
      ollamaChatGo acc em stream
        = (acc ++ concatFragments (fragmentsBeforeDone stream),
           em ++ fragmentsBeforeDone stream) := by
  induction stream with
  | nil =>
    intro acc em
    simp [ollamaChatGo, fragmentsBeforeDone, concatFragments]
  | cons r rest ih =>
    intro acc em
    by_cases hr : r.response = ""
    · by_cases hd : r.done
      · simp [ollamaChatGo, fragmentsBeforeDone, hr, hd, concatFragments]
      · have e1 : ollamaChatGo acc em (r :: rest) = ollamaChatGo acc em rest := by
          simp [ollamaChatGo, hr, hd]
        have e2 : fragmentsBeforeDone (r :: rest) = fragmentsBeforeDone rest := by
          simp [fragmentsBeforeDone, hr, hd]
        rw [e1, e2, ih acc em]
    · by_cases hd : r.done
      · simp only [ollamaChatGo, fragmentsBeforeDone, if_neg hr, if_pos hd]
        rw [concatFragments_cons]
        simp [concatFragments, String.append_assoc]
      · simp only [ollamaChatGo, fragmentsBeforeDone, if_neg hr, if_neg hd]
        rw [ih (acc ++ r.response) (em ++ [r.response])]
        simp [List.singleton_append, concatFragments_cons, String.append_assoc,
          List.append_assoc]

/-- Claim C8: the final assistant message content of a streamed response
is the concatenation, in arrival order, of the non-empty fragments
received before the done signal: the stream reader returns exactly that
concatenation, emits exactly those fragments to the client, and the
client-side `fullResponse += chunk` accumulation over the emitted
fragments rebuilds the returned content; in particular the fragments
`["The ", "answer ", "is 42."]` yield `"The answer is 42."`. -/
theorem ollamaChat_concat :
    (∀ stream : List OllamaResponse,
      (ollamaChat stream).1 = concatFragments (fragmentsBeforeDone stream)
      ∧ (ollamaChat stream).2 = fragmentsBeforeDone stream
      ∧ concatFragments (ollamaChat stream).2 = (ollamaChat stream).1)
    ∧ ollamaChat [⟨"The ", false⟩, ⟨"answer ", false⟩, ⟨"is 42.", true⟩]
        = ("The answer is 42.", ["The ", "answer ", "is 42."]) := by
  have hmain : ∀ stream : List OllamaResponse,
      ollamaChat stream
        = (concatFragments (fragmentsBeforeDone stream), fragmentsBeforeDone stream) := by
    intro stream
    unfold ollamaChat
    rw [ollamaChatGo_spec stream "" []]
    rw [String.empty_append, List.nil_append]
  constructor
  · intro stream
    rw [hmain stream]
    exact ⟨rfl, rfl, rfl⟩
  · decide

end Base24
